import Mathlib

/-!
Verification of the Sanar Telegram bot (source files `bot.py` and `main.py`).

The development shallowly embeds the bot's pure text-processing core
(identifier extraction in `process_user_ids`, output formatting in
`process_amount`) and its approval-workflow state machine (`start`,
`handle_approval`, `get_user_id_for_message`, the conversation handlers)
as executable Lean functions over `List Char` texts, association-list
dictionaries and list-encoded sets, and proves the specification's
claims about them.

Modelling conventions:
* Python strings are `List Char`; the embedding models the ASCII fragment
  of Python's regex classes (`\d` is `'0'..'9'`, `\w` is alphanumeric or
  underscore) and of `str.isdigit` / `str.strip` / `int(...)`.
* Python dicts are association lists with unique keys (`assocGet`,
  `assocSet`, `assocPop` mirror `d[k]`, `d.get`, `d.pop(k, None)`).
* Python sets of ints are `List Nat` with membership semantics
  (`setInsert` mirrors `s.add`).
* Outbound gateway traffic is recorded as a list of `Effect`s; sends are
  modelled as always delivered (delivery failures are swallowed by the
  source and change no state).
-/

namespace Sanar

/-- Character class of the ASCII decimal digits, the `\d` of the source's
regular expressions restricted to ASCII. -/
def isDigitC (c : Char) : Bool := c.isDigit

/-- Character class of the regex word characters `\w` (ASCII fragment):
letters, digits and the underscore.  Word boundaries `\b` in
`re.findall(r'\b\d{5,}\b', ...)` separate a word character from a
non-word character or a string edge. -/
def isWordC (c : Char) : Bool := c.isAlphanum || c == '_'

/-- Whitespace as stripped by Python's `str.strip()` (ASCII fragment). -/
def isSpaceC (c : Char) : Bool := c.isWhitespace

/-- Numeric value of a list of decimal digit characters, most significant
first; the value computed by Python's `int` on a digit string. -/
def digitsVal (l : List Char) : Nat :=
  l.foldl (fun a c => 10 * a + (c.toNat - 48)) 0

/-- Python's `str.strip()`: remove whitespace from both ends. -/
def pyStrip (l : List Char) : List Char :=
  ((l.dropWhile isSpaceC).reverse.dropWhile isSpaceC).reverse

/-- Python's `str.isdigit()` (ASCII fragment): nonempty and all decimal
digits. -/
def pyIsdigit (l : List Char) : Bool := !l.isEmpty && l.all isDigitC

/-- Tail of a Python decimal digit-part after its leading digit: digits
with single grouping underscores strictly between digits. -/
def digitTail : List Char → Bool
  | [] => true
  | c :: rest =>
    if c = '_' then
      match rest with
      | [] => false
      | d :: rest' => isDigitC d && digitTail rest'
    else isDigitC c && digitTail rest

/-- A Python decimal digit-part, `digit (["_"] digit)*`: what `int`
accepts after the optional sign. -/
def digitPart : List Char → Bool
  | [] => false
  | c :: rest => isDigitC c && digitTail rest

/-- Python's `int(str)` conversion (ASCII fragment): strip whitespace,
allow one optional leading sign, then require a decimal digit-part
(grouping underscores permitted between digits); `none` models the
`ValueError` raised otherwise. -/
def pyIntParse (l : List Char) : Option Int :=
  match pyStrip l with
  | [] => none
  | c :: rest =>
    if c = '+' then
      if digitPart rest = true then
        some ((digitsVal (rest.filter (fun d => decide (d ≠ '_'))) : Nat) : Int)
      else none
    else if c = '-' then
      if digitPart rest = true then
        some (-((digitsVal (rest.filter (fun d => decide (d ≠ '_'))) : Nat) : Int))
      else none
    else if digitPart (c :: rest) = true then
      some ((digitsVal ((c :: rest).filter (fun d => decide (d ≠ '_'))) : Nat) : Int)
    else none

/-- Python's `str.split(sep)` for a single-character separator: split at
every occurrence, keeping empty pieces (so `"a_b".split("_") = ["a","b"]`
and `"_".split("_") = ["", ""]`). -/
def splitSep (sep : Char) : List Char → List (List Char)
  | [] => [[]]
  | c :: cs =>
    if c = sep then [] :: splitSep sep cs
    else
      match splitSep sep cs with
      | [] => [[c]]
      | l :: ls => (c :: l) :: ls

/-- Python's `'\n'.join(lines)`: pieces joined by single newlines, no
trailing separator. -/
def joinNL : List (List Char) → List Char
  | [] => []
  | l :: ls =>
    match ls with
    | [] => l
    | _ :: _ => l ++ '\n' :: joinNL ls

/-- The line-building loop of `process_amount`: one `f"{user_id} {amount}"`
string per stored identifier, in order (bot.py lines 399-401, main.py
lines 264-266). -/
def formatLines (ids : List (List Char)) (amount : List Char) : List (List Char) :=
  ids.map (fun i => i ++ ' ' :: amount)

/-- The final output of `process_amount`: `'\n'.join(formatted_lines)`
(bot.py line 403, main.py line 268). -/
def process_amount_output (ids : List (List Char)) (amount : List Char) : List Char :=
  joinNL (formatLines ids amount)

/-!
Identifier extraction (`process_user_ids`, identical in bot.py lines
328-355 and main.py lines 201-227):
`user_ids = re.findall(r'\b\d{5,}\b', message_text)` followed by a
seen-set loop removing duplicates while preserving order.

A match of `\b\d{5,}\b` is a maximal run of decimal digits of length at
least 5 whose neighbouring characters (when they exist) are non-word
characters: the trailing `\b` cannot fall between two digits, so the
greedy `\d{5,}` cannot stop mid-run, and `\b` at either end demands a
word/non-word transition.  `scanRuns` reproduces the scan: it walks the
text, accumulates the current digit run in `acc`, and emits the run when
it is long enough and both of its boundaries are word boundaries.
`prevOK` records whether the character immediately before the current
position (or run) was a non-word character or the string edge. -/
def scanRuns (prevOK : Bool) (acc : List Char) : List Char → List (List Char)
  | [] => if 5 ≤ acc.length ∧ prevOK = true then [acc] else []
  | c :: cs =>
    if isDigitC c = true then
      scanRuns prevOK (acc ++ [c]) cs
    else
      (if 5 ≤ acc.length ∧ prevOK = true ∧ isWordC c = false then [acc] else []) ++
        scanRuns (!isWordC c) [] cs

/-- All matches of `re.findall(r'\b\d{5,}\b', text)`, in order. -/
def tokenRuns (text : List Char) : List (List Char) :=
  scanRuns true [] text

/-- The duplicate-removal loop of `process_user_ids`: walk the extracted
list keeping a `seen` set, appending each identifier the first time it
is met. -/
def dedupSeen : List (List Char) → List (List Char) → List (List Char)
  | _, [] => []
  | seen, x :: xs =>
    if x ∈ seen then dedupSeen seen xs else x :: dedupSeen (x :: seen) xs

/-- The extraction step of `process_user_ids`: regex matches, then the
order-preserving duplicate removal. -/
def extractIds (text : List Char) : List (List Char) :=
  dedupSeen [] (tokenRuns text)

/-- Right-boundary condition of a match: the character after the run,
when there is one, is not a word character (trivially true at the
string edge). -/
def headNotWord (l : List Char) : Prop :=
  ∀ c, l.head? = some c → isWordC c = false

/-- Declarative characterisation of one match of `\b\d{5,}\b`: a digit
run of length at least 5 occurring in the text with a non-word
character or the string edge on both sides.  Non-word characters are in
particular non-digits, so such a run is automatically a maximal digit
run. -/
def isWholeTokenRun (text r : List Char) : Prop :=
  5 ≤ r.length ∧ (∀ c ∈ r, isDigitC c = true) ∧
  ∃ pre post, text = pre ++ r ++ post ∧
    (∀ c, pre.getLast? = some c → isWordC c = false) ∧ headNotWord post

/-- The boundary notion the claim itself states: runs bounded by
non-digit characters or string edges and not embedded in a longer
alphanumeric run, i.e. with non-alphanumeric neighbours.  This treats
the underscore as a valid boundary, unlike the regex word boundary. -/
def claimTokenRun (text r : List Char) : Prop :=
  5 ≤ r.length ∧ (∀ c ∈ r, isDigitC c = true) ∧
  ∃ pre post, text = pre ++ r ++ post ∧
    (∀ c, pre.getLast? = some c → c.isAlphanum = false) ∧
    (∀ c, post.head? = some c → c.isAlphanum = false)

/-- Canonical duplicate removal keeping the first occurrence of every
element, in order: the claim's "deduplicated so each distinct run
appears exactly once, in first-occurrence order". -/
def dedupFirst : List (List Char) → List (List Char)
  | [] => []
  | x :: xs => x :: dedupFirst (xs.filter (fun y => decide (y ≠ x)))
termination_by l => l.length
decreasing_by
  simp only [List.length_cons]
  exact Nat.lt_succ_of_le (List.length_filter_le _ _)

/-- Scanner invariant, first disjunct: the emitted run extends the
pending accumulator `acc` with a digit prefix of the remaining text,
the left boundary was already acceptable (`prevOK`), and the character
after the prefix, if any, is a non-word character. -/
def headRun (prevOK : Bool) (acc text r : List Char) : Prop :=
  ∃ ds post, text = ds ++ post ∧ (∀ c ∈ ds, isDigitC c = true) ∧
    r = acc ++ ds ∧ 5 ≤ r.length ∧ prevOK = true ∧ headNotWord post

/-- Scanner invariant, second disjunct: the emitted run lies strictly
inside the remaining text, with a non-word character immediately before
it. -/
def tailRun (text r : List Char) : Prop :=
  5 ≤ r.length ∧ (∀ c ∈ r, isDigitC c = true) ∧
  ∃ pre post, text = pre ++ r ++ post ∧ pre ≠ [] ∧
    (∀ c, pre.getLast? = some c → isWordC c = false) ∧ headNotWord post

/-!
The approval-workflow state machine.  Global state: `pending_approvals`
(a dict from user id to the stored profile snapshot), `approved_users`
(a set of user ids), and the per-user conversation sessions (their
conversation stage plus the `context.user_data['user_ids']` list).
-/

/-- The profile snapshot stored in `pending_approvals[user_id]`
(bot.py lines 79-83, main.py lines 54-58). -/
structure Profile where
  username : Option String
  firstName : String
  lastName : String
deriving DecidableEq

/-- The empty dict `{}` used as the default snapshot by
`pending_approvals.get(user_id, {})`. -/
def emptyProfile : Profile := ⟨none, "", ""⟩

/-- Lookup in an association-list dict, `d.get(k)`. -/
def assocGet {β : Type} (k : Nat) : List (Nat × β) → Option β
  | [] => none
  | (k', v) :: rest => if k' = k then some v else assocGet k rest

/-- Insert-or-overwrite in an association-list dict, `d[k] = v`. -/
def assocSet {β : Type} (k : Nat) (v : β) : List (Nat × β) → List (Nat × β)
  | [] => [(k, v)]
  | (k', v') :: rest => if k' = k then (k, v) :: rest else (k', v') :: assocSet k v rest

/-- Removal from an association-list dict, `d.pop(k, None)`. -/
def assocPop {β : Type} (k : Nat) : List (Nat × β) → List (Nat × β)
  | [] => []
  | (k', v') :: rest => if k' = k then rest else (k', v') :: assocPop k rest

/-- Insertion into a set of ids, `s.add(x)`. -/
def setInsert (x : Nat) (s : List Nat) : List Nat :=
  if x ∈ s then s else x :: s

/-- The messages the bot produces, abstracted to their kind together with
the data the specification's claims mention. -/
inductive Msg where
  | adminMenu
  | paymentPrompt
  | approvalRequest (uid : Nat) (p : Profile)
  | requestAck
  | approvedNotice (uid : Nat) (p : Profile)
  | rejectedNotice (uid : Nat) (p : Profile)
  | approvedUserMsg
  | rejectedUserMsg
  | formatInstructions
  | noIdsFound
  | idsExtracted (ids : List (List Char))
  | invalidAmount
  | noIdsStored
  | formattedOutput (out : List Char)
  | formatMoreButton
  | askTargetId
  | adminOnly
  | invalidTargetId
  | deepLink (uid : Nat)
  | cancelled
  | helpText
deriving DecidableEq

/-- An outbound gateway operation. -/
inductive Effect where
  | send (chat : Nat) (m : Msg)
  | reply (m : Msg)
  | edit (m : Msg)
deriving DecidableEq

/-- The conversation stages (bot.py line 45: `WAITING_FOR_IDS,
WAITING_FOR_AMOUNT, WAITING_FOR_USER_ID`, plus the idle stage outside
any conversation, `ConversationHandler.END`). -/
inductive ConvState where
  | idle
  | waitingForIds
  | waitingForAmount
  | waitingForUserId
deriving DecidableEq

/-- The whole process state: the two global containers and the per-user
sessions (conversation stage and working identifier list). -/
structure BotState where
  pending : List (Nat × Profile)
  approved : List Nat
  sessions : List (Nat × (ConvState × List (List Char)))
deriving DecidableEq

/-- The session of a user, defaulting to idle with no working data. -/
def getSession (st : BotState) (uid : Nat) : ConvState × List (List Char) :=
  (assocGet uid st.sessions).getD (ConvState.idle, [])

/-- Store a user's session. -/
def setSession (st : BotState) (uid : Nat) (s : ConvState × List (List Char)) : BotState :=
  { st with sessions := assocSet uid s st.sessions }

/-- The `/start` handler of bot.py (lines 60-118): the administrator gets
the admin menu; an approved user gets the payment-format prompt; anyone
else is recorded in `pending_approvals` and an approval request is sent
to the administrator. -/
def start_bot (adm uid : Nat) (p : Profile) (st : BotState) : BotState × List Effect :=
  if uid = adm then (st, [.reply .adminMenu])
  else if uid ∈ st.approved then (st, [.reply .paymentPrompt])
  else
    ({ st with pending := assocSet uid p st.pending },
     [.send adm (.approvalRequest uid p), .reply .requestAck])

/-- The `/start` handler of main.py (lines 43-92): identical except that
there is no administrator branch (main.py has no admin menu at all). -/
def start_main (adm uid : Nat) (p : Profile) (st : BotState) : BotState × List Effect :=
  if uid ∈ st.approved then (st, [.reply .paymentPrompt])
  else
    ({ st with pending := assocSet uid p st.pending },
     [.send adm (.approvalRequest uid p), .reply .requestAck])

/-- The decision core of `handle_approval` (bot.py lines 214-265, main.py
lines 103-150), after the callback data has been parsed into the action
and the target id: on approve, add the target to `approved_users`; read
the pending snapshot with `pending_approvals.get(user_id, {})`; notify
admin and target; finally `pending_approvals.pop(user_id, None)`. -/
def decideApproval (approve : Bool) (uid : Nat) (st : BotState) : BotState × List Effect :=
  let snap := (assocGet uid st.pending).getD emptyProfile
  if approve then
    ({ st with approved := setInsert uid st.approved, pending := assocPop uid st.pending },
     [.edit (.approvedNotice uid snap), .send uid .approvedUserMsg])
  else
    ({ st with pending := assocPop uid st.pending },
     [.edit (.rejectedNotice uid snap), .send uid .rejectedUserMsg])

/-- The callback pattern `^(approve|reject)_\d+$` used when registering
`handle_approval` (bot.py line 507, main.py line 329), for one
alternative `tag`: the data is `tag`, one underscore, then a nonempty
digit run. -/
def matchTag (tag data : List Char) : Bool :=
  decide (data.take (tag.length + 1) = tag ++ ['_']) &&
    !(data.drop (tag.length + 1)).isEmpty &&
    (data.drop (tag.length + 1)).all isDigitC

/-- Whether callback data matches `^(approve|reject)_\d+$`. -/
def matchesDecision (data : List Char) : Bool :=
  matchTag ("approve".toList) data || matchTag ("reject".toList) data

/-- Summary of the parsing prefix of `handle_approval` (bot.py lines
210-214, main.py lines 99-103): `action, user_id = data.split("_")`,
`user_id = int(user_id)`, and the branch test on the action; `some`
carries whether the action is approve, together with the target id.
`none` means the handler takes no decision branch: unpacking into two
names fails, the conversion fails, or the action is neither tag
(impossible under the dispatch pattern). -/
def parseDecision (data : List Char) : Option (Bool × Nat) :=
  match splitSep '_' data with
  | [a, d] =>
    match pyIntParse d with
    | none => none
    | some n =>
      if a = ("approve".toList) then some (true, n.toNat)
      else if a = ("reject".toList) then some (false, n.toNat)
      else none
  | _ => none

/-- The body of `handle_approval` after the split: convert the id part
to an int — when the conversion raises, the handler's `except` block
swallows the error and nothing changes — then run the approve or reject
branch; the final `pending_approvals.pop(user_id, None)` runs even when
the action matches neither branch (unreachable under the dispatch
pattern, which admits only the two tags). -/
def decideAction (a d : List Char) (st : BotState) : BotState × List Effect :=
  match pyIntParse d with
  | none => (st, [])
  | some n =>
    if a = ("approve".toList) then decideApproval true n.toNat st
    else if a = ("reject".toList) then decideApproval false n.toNat st
    else ({ st with pending := assocPop n.toNat st.pending }, [])

/-- `handle_approval` on raw callback data (bot.py lines 204-268, main.py
lines 94-150): `action, user_id = data.split("_")` — when unpacking into
exactly two names raises, the handler's `except` block swallows the
error and nothing changes — then the decision body. -/
def handle_approval (data : List Char) (st : BotState) : BotState × List Effect :=
  match splitSep '_' data with
  | [a, d] => decideAction a d st
  | _ => (st, [])

/-- The `process_user_ids` conversation handler (bot.py lines 322-376,
main.py lines 196-242), acting on the user's working data
`context.user_data['user_ids']`: extract ids; when none are found,
re-prompt and stay in `WAITING_FOR_IDS`; otherwise store the list, echo
it, and move to `WAITING_FOR_AMOUNT`. -/
def process_user_ids (text : List Char) (ud : List (List Char)) :
    List (List Char) × List Effect × ConvState :=
  let ids := extractIds text
  if ids.isEmpty then (ud, [.reply .noIdsFound], .waitingForIds)
  else (ids, [.reply (.idsExtracted ids)], .waitingForAmount)

/-- The `process_amount` conversation handler of bot.py (lines 378-434):
strip the amount, re-prompt when empty; abort when no ids are stored;
otherwise emit the formatted output, clear the working data, and show
the admin menu to the administrator or the format-more button to anyone
else. -/
def process_amount_bot (adm uid : Nat) (text : List Char) (ud : List (List Char)) :
    List (List Char) × List Effect × ConvState :=
  let amount := pyStrip text
  if amount.isEmpty then (ud, [.reply .invalidAmount], .waitingForAmount)
  else if ud.isEmpty then (ud, [.reply .noIdsStored], .idle)
  else
    ([], .reply (.formattedOutput (process_amount_output ud amount)) ::
          (if uid = adm then [.reply .adminMenu] else [.reply .formatMoreButton]),
     .idle)

/-- The `process_amount` handler of main.py (lines 244-289): identical
except the follow-up is always the format-more button. -/
def process_amount_main (text : List Char) (ud : List (List Char)) :
    List (List Char) × List Effect × ConvState :=
  let amount := pyStrip text
  if amount.isEmpty then (ud, [.reply .invalidAmount], .waitingForAmount)
  else if ud.isEmpty then (ud, [.reply .noIdsStored], .idle)
  else
    ([], [.reply (.formattedOutput (process_amount_output ud amount)), .reply .formatMoreButton],
     .idle)

/-- The `get_user_id_for_message` handler of bot.py (lines 163-202):
strip the text; when the stripped input is not a nonempty all-digit
string of length at least 5, re-prompt and stay in
`WAITING_FOR_USER_ID`; otherwise reply with the
`tg://openmessage?user_id=...` deep link for `int(user_input)`,
re-present the admin menu, and end the conversation. -/
def get_user_id_for_message (text : List Char) (ud : List (List Char)) :
    List (List Char) × List Effect × ConvState :=
  let input := pyStrip text
  if pyIsdigit input = false ∨ input.length < 5 then
    (ud, [.reply .invalidTargetId], .waitingForUserId)
  else
    (ud, [.reply (.deepLink (digitsVal input)), .reply .adminMenu], .idle)

/-- The `cancel` handler (bot.py lines 436-446, main.py lines 291-298):
clear the working data, confirm, end the conversation. -/
def cancelHandler (_ud : List (List Char)) :
    List (List Char) × List Effect × ConvState :=
  ([], [.reply .cancelled], .idle)

/-- The inbound events of the gateway. -/
inductive Event where
  | startCmd (uid : Nat) (p : Profile)
  | helpCmd (uid : Nat)
  | cancelCmd (uid : Nat)
  | callback (uid : Nat) (data : List Char)
  | text (uid : Nat) (body : List Char)
deriving DecidableEq

/-- Lift a session handler's result into the machine. -/
def applySession (st : BotState) (uid : Nat)
    (r : List (List Char) × List Effect × ConvState) : BotState × List Effect :=
  (setSession st uid (r.2.2, r.1), r.2.1)

/-- One dispatch step of bot.py: commands go to their command handlers,
callback data matching `^(approve|reject)_\d+$` goes to
`handle_approval`, `payment_format` starts the format conversation,
`message_user` (administrator only) starts the message-by-id
conversation, and free text goes to the handler of the user's current
conversation stage (dropped when idle).  Session-routing idealization:
bot.py registers standalone handlers for `payment_format`,
`message_user` and `/cancel` (lines 504, 510, 513) before its
`ConversationHandler`s (lines 542-543), and the framework runs only the
first matching handler per group, so the real bot.py's conversation
entry points and fallback are shadowed by those standalone handlers;
this step follows the specification's DialogRouter routing instead.
The pending map and the approved set are driven by the same handlers in
either reading, so their per-event effects coincide. -/
def botStep (adm : Nat) (e : Event) (st : BotState) : BotState × List Effect :=
  match e with
  | .startCmd uid p => start_bot adm uid p st
  | .helpCmd _ => (st, [.reply .helpText])
  | .cancelCmd uid => applySession st uid (cancelHandler (getSession st uid).2)
  | .callback uid data =>
    if matchesDecision data = true then handle_approval data st
    else if data = ("payment_format".toList) then
      (setSession st uid (.waitingForIds, (getSession st uid).2), [.edit .formatInstructions])
    else if data = ("message_user".toList) then
      if uid = adm then
        (setSession st uid (.waitingForUserId, (getSession st uid).2), [.edit .askTargetId])
      else (st, [.edit .adminOnly])
    else (st, [])
  | .text uid body =>
    match (getSession st uid).1 with
    | .idle => (st, [])
    | .waitingForIds => applySession st uid (process_user_ids body (getSession st uid).2)
    | .waitingForAmount => applySession st uid (process_amount_bot adm uid body (getSession st uid).2)
    | .waitingForUserId => applySession st uid (get_user_id_for_message body (getSession st uid).2)

/-- One dispatch step of main.py: as for bot.py but with main.py's
`/start`, no `message_user` feature, and main.py's `process_amount`.
The same session-routing idealization applies to `/cancel`: main.py's
standalone cancel handler (line 326) shadows the conversation fallback
(first match per group), so the real conversation stage persists where
this step ends it; the pending map and the approved set are
unaffected either way. -/
def mainStep (adm : Nat) (e : Event) (st : BotState) : BotState × List Effect :=
  match e with
  | .startCmd uid p => start_main adm uid p st
  | .helpCmd _ => (st, [.reply .helpText])
  | .cancelCmd uid => applySession st uid (cancelHandler (getSession st uid).2)
  | .callback uid data =>
    if matchesDecision data = true then handle_approval data st
    else if data = ("payment_format".toList) then
      (setSession st uid (.waitingForIds, (getSession st uid).2), [.edit .formatInstructions])
    else (st, [])
  | .text uid body =>
    match (getSession st uid).1 with
    | .idle => (st, [])
    | .waitingForIds => applySession st uid (process_user_ids body (getSession st uid).2)
    | .waitingForAmount => applySession st uid (process_amount_main body (getSession st uid).2)
    | .waitingForUserId => (st, [])

/-!
Process configuration.  bot.py lines 25-42 validate at module level:
a missing or empty `BOT_TOKEN` exits with status 1, a missing or empty
`ADMIN_ID` exits with status 1, and a non-numeric `ADMIN_ID` exits with
status 1.  main.py lines 23-24 instead run
`ADMIN_ID = int(os.environ.get("ADMIN_ID", 0))`: a missing `ADMIN_ID`
silently defaults to 0, a set but non-numeric one raises an uncaught
`ValueError` at import (terminating the process), and `BOT_TOKEN` is
never checked by main.py itself.
-/

/-- bot.py module-level configuration validation; `Except.error 1` is
`sys.exit(1)` before any polling starts, `Except.ok` carries the parsed
administrator id. -/
def botConfig (token adminId : Option String) : Except Nat Int :=
  match token with
  | none => .error 1
  | some t =>
    if t = "" then .error 1
    else
      match adminId with
      | none => .error 1
      | some a =>
        if a = "" then .error 1
        else
          match pyIntParse a.toList with
          | none => .error 1
          | some n => .ok n

/-- main.py module-level configuration loading; `Except.error` is the
uncaught `ValueError` (non-zero process termination at import), `ok`
carries the unchecked token and the administrator id. -/
def mainConfig (token adminId : Option String) : Except Unit (Option String × Int) :=
  match adminId with
  | none => .ok (token, 0)
  | some a =>
    match pyIntParse a.toList with
    | none => .error ()
    | some n => .ok (token, n)

/-- Whether a configuration step terminated the process. -/
def isErr {ε α : Type} : Except ε α → Bool
  | .error _ => true
  | .ok _ => false

/-!
Helper lemmas: `splitSep` against append, Python `int` on digit strings,
and the association-list dictionary operations.
-/

lemma splitSep_not_mem (sep : Char) (l : List Char) (h : sep ∉ l) :
    splitSep sep l = [l] := by
  induction l with
  | nil => rfl
  | cons c cs ih =>
    have hc : ¬ (c = sep) := fun e => h (e ▸ List.mem_cons_self c cs)
    have hcs : sep ∉ cs := fun m => h (List.mem_cons_of_mem _ m)
    simp [splitSep, hc, ih hcs]

lemma splitSep_append (sep : Char) (l rest : List Char) (h : sep ∉ l) :
    splitSep sep (l ++ sep :: rest) = l :: splitSep sep rest := by
  induction l with
  | nil => simp [splitSep]
  | cons c cs ih =>
    have hc : ¬ (c = sep) := fun e => h (e ▸ List.mem_cons_self c cs)
    have hcs : sep ∉ cs := fun m => h (List.mem_cons_of_mem _ m)
    simp [splitSep, hc, ih hcs]

lemma splitSep_joinNL (ls : List (List Char)) (hne : ls ≠ [])
    (h : ∀ l ∈ ls, '\n' ∉ l) :
    splitSep '\n' (joinNL ls) = ls := by
  induction ls with
  | nil => exact absurd rfl hne
  | cons l ls ih =>
    cases ls with
    | nil =>
      show splitSep '\n' l = [l]
      exact splitSep_not_mem _ _ (h l (List.mem_cons_self _ _))
    | cons l' rest =>
      have h1 : '\n' ∉ l := h l (List.mem_cons_self _ _)
      have h2 : ∀ x ∈ l' :: rest, '\n' ∉ x := fun x hx => h x (List.mem_cons_of_mem _ hx)
      show splitSep '\n' (l ++ '\n' :: joinNL (l' :: rest)) = l :: l' :: rest
      rw [splitSep_append _ _ _ h1, ih (by simp) h2]

lemma dropWhile_eq_self_of_all {p : Char → Bool} {l : List Char}
    (h : ∀ c ∈ l, p c = false) : l.dropWhile p = l := by
  cases l with
  | nil => rfl
  | cons c cs => simp [List.dropWhile_cons, h c (List.mem_cons_self _ _)]

lemma pyStrip_no_space (l : List Char) (h : ∀ c ∈ l, isSpaceC c = false) :
    pyStrip l = l := by
  unfold pyStrip
  rw [dropWhile_eq_self_of_all h,
    dropWhile_eq_self_of_all (fun c hc => h c (List.mem_reverse.mp hc)),
    List.reverse_reverse]

lemma not_space_of_digit {c : Char} (h : isDigitC c = true) : isSpaceC c = false := by
  rcases Bool.eq_false_or_eq_true (isSpaceC c) with ht | hf
  · exfalso
    have : c = ' ' ∨ c = '\t' ∨ c = '\r' ∨ c = '\n' := by
      have := ht
      simp only [isSpaceC, Char.isWhitespace, Bool.or_eq_true, decide_eq_true_eq] at this
      tauto
    rcases this with rfl | rfl | rfl | rfl <;> exact absurd h (by decide)
  · exact hf

lemma digitTail_of_digits (l : List Char) (h : ∀ c ∈ l, isDigitC c = true) :
    digitTail l = true := by
  induction l with
  | nil => rfl
  | cons c rest ih =>
    have hc := h c (List.mem_cons_self _ _)
    have hu : ¬ (c = '_') := fun e => absurd (e ▸ hc) (by decide)
    rw [digitTail.eq_def]
    simp only []
    rw [if_neg hu, hc, ih (fun x hx => h x (List.mem_cons_of_mem _ hx))]
    rfl

lemma digitPart_of_digits (l : List Char) (hne : l ≠ [])
    (h : ∀ c ∈ l, isDigitC c = true) : digitPart l = true := by
  cases l with
  | nil => exact absurd rfl hne
  | cons c rest =>
    simp [digitPart, h c (List.mem_cons_self _ _),
      digitTail_of_digits rest (fun x hx => h x (List.mem_cons_of_mem _ hx))]

lemma filter_underscore_of_digits (l : List Char) (h : ∀ c ∈ l, isDigitC c = true) :
    l.filter (fun d => decide (d ≠ '_')) = l := by
  apply List.filter_eq_self.mpr
  intro a ha
  have hd := h a ha
  have : ¬ (a = '_') := fun e => absurd (e ▸ hd) (by decide)
  exact decide_eq_true this

lemma pyIntParse_digits (ds : List Char) (hne : ds ≠ [])
    (hd : ∀ c ∈ ds, isDigitC c = true) :
    pyIntParse ds = some ((digitsVal ds : Nat) : Int) := by
  have hs : pyStrip ds = ds :=
    pyStrip_no_space ds (fun c hc => not_space_of_digit (hd c hc))
  unfold pyIntParse
  rw [hs]
  cases ds with
  | nil => exact absurd rfl hne
  | cons c rest =>
    have hc : isDigitC c = true := hd c (List.mem_cons_self _ _)
    have h1 : ¬ (c = '+') := fun h => absurd (h ▸ hc) (by decide)
    have h2 : ¬ (c = '-') := fun h => absurd (h ▸ hc) (by decide)
    have h3 : digitPart (c :: rest) = true := digitPart_of_digits _ (by simp) hd
    have h4 : (c :: rest).filter (fun d => decide (d ≠ '_')) = c :: rest :=
      filter_underscore_of_digits _ hd
    have h4' : (c :: rest).filter (fun d => !decide (d = '_')) = c :: rest := by
      simpa using h4
    simp [h1, h2, h3, h4']

lemma assocGet_eq_none_of_not_mem {β : Type} (k : Nat) (l : List (Nat × β))
    (h : k ∉ l.map Prod.fst) : assocGet k l = none := by
  induction l with
  | nil => rfl
  | cons kv rest ih =>
    have h1 : ¬ (kv.1 = k) := by
      intro e
      exact h (by simp [← e])
    have h2 : k ∉ rest.map Prod.fst := fun m => h (by simp [m])
    obtain ⟨k', v⟩ := kv
    simpa [assocGet, h1] using ih h2

lemma assocGet_assocPop_self {β : Type} (k : Nat) (l : List (Nat × β))
    (h : (l.map Prod.fst).Nodup) : assocGet k (assocPop k l) = none := by
  induction l with
  | nil => rfl
  | cons kv rest ih =>
    obtain ⟨k', v⟩ := kv
    simp only [List.map_cons, List.nodup_cons] at h
    by_cases hk : k' = k
    · subst hk
      simpa [assocPop] using assocGet_eq_none_of_not_mem k' rest h.1
    · simpa [assocPop, assocGet, hk] using ih h.2

lemma mem_setInsert_self (x : Nat) (s : List Nat) : x ∈ setInsert x s := by
  unfold setInsert
  split <;> simp [*]

lemma mem_setInsert_of_mem (x y : Nat) (s : List Nat) (h : y ∈ s) :
    y ∈ setInsert x s := by
  unfold setInsert
  split <;> simp [h]

lemma mem_of_mem_setInsert {x y : Nat} {s : List Nat}
    (h : y ∈ setInsert x s) : y = x ∨ y ∈ s := by
  unfold setInsert at h
  split at h
  · exact Or.inr h
  · rcases List.mem_cons.mp h with h | h
    · exact Or.inl h
    · exact Or.inr h

/-!
Claim theorems.
-/

/-- Claim C2 (confirmed): for every non-empty ordered sequence of tokens
and every amount string (newline-free, so that the notion of a line is
well defined), the output of `process_amount` consists of exactly one
line per token, of the form token-space-amount, in input order, joined
by single newlines with no trailing newline: splitting the output on
newlines recovers exactly the built lines. -/
theorem C2_formatter (ids : List (List Char)) (amount : List Char)
    (hne : ids ≠ []) (hids : ∀ i ∈ ids, '\n' ∉ i) (ham : '\n' ∉ amount) :
    splitSep '\n' (process_amount_output ids amount) =
      ids.map (fun i => i ++ ' ' :: amount) := by
  unfold process_amount_output
  have hlines : ∀ l ∈ formatLines ids amount, '\n' ∉ l := by
    intro l hl
    obtain ⟨i, hi, rfl⟩ := List.mem_map.mp hl
    intro hmem
    rcases List.mem_append.mp hmem with h | h
    · exact hids i hi h
    · rcases List.mem_cons.mp h with h | h
      · exact absurd h.symm (by decide)
      · exact ham h
  have hfne : formatLines ids amount ≠ [] := by
    simpa [formatLines] using hne
  exact splitSep_joinNL _ hfne hlines

/-- Witness for C2 at the specification's example:
`format(["111","222"], "2.1")` splits into the two expected lines and
the raw output is the string with the single inner newline. -/
theorem C2_formatter_witness :
    splitSep '\n' (process_amount_output [("111".toList), ("222".toList)] ("2.1".toList)) =
        [("111 2.1".toList), ("222 2.1".toList)] ∧
    process_amount_output [("111".toList), ("222".toList)] ("2.1".toList) =
      ("111 2.1\n222 2.1".toList) := by
  constructor
  · have h := C2_formatter [("111".toList), ("222".toList)] ("2.1".toList)
      (by decide) (by decide) (by decide)
    exact h.trans (by decide)
  · decide

/-- Claim C10 (confirmed): on every callback data string accepted by the
dispatch pattern for decisions, splitting on underscore yields exactly
the action and the digit string, the integer conversion succeeds, and
the parsing step of `handle_approval` cannot hit its error branch: the
handler always reaches the decision body. -/
theorem C10_parse_total (data : List Char) (h : matchesDecision data = true) :
    ∃ a ds, splitSep '_' data = [a, ds] ∧
      (a = ("approve".toList) ∨ a = ("reject".toList)) ∧
      pyIntParse ds = some ((digitsVal ds : Nat) : Int) ∧
      (parseDecision data).isSome = true ∧
      (∀ st : BotState, handle_approval data st = decideAction a ds st) := by
  have main : ∀ tag : List Char, '_' ∉ tag → matchTag tag data = true →
      (tag = ("approve".toList) ∨ tag = ("reject".toList)) →
      ∃ a ds, splitSep '_' data = [a, ds] ∧
        (a = ("approve".toList) ∨ a = ("reject".toList)) ∧
        pyIntParse ds = some ((digitsVal ds : Nat) : Int) ∧
        (parseDecision data).isSome = true ∧
        (∀ st : BotState, handle_approval data st = decideAction a ds st) := by
    intro tag htag hm htag2
    unfold matchTag at hm
    simp only [Bool.and_eq_true, decide_eq_true_eq] at hm
    obtain ⟨⟨h1, h2⟩, h3⟩ := hm
    have hdecomp : ∃ ds, data = tag ++ '_' :: ds ∧ ds ≠ [] ∧
        (∀ c ∈ ds, isDigitC c = true) := by
      refine ⟨data.drop (tag.length + 1), ?_, ?_, List.all_eq_true.mp h3⟩
      · conv_lhs => rw [← List.take_append_drop (tag.length + 1) data]
        rw [h1]
        simp
      · intro e
        rw [e] at h2
        exact absurd h2 (by decide)
    obtain ⟨ds, rfl, hne2, hdig⟩ := hdecomp
    have hnods : '_' ∉ ds := fun hmem => absurd (hdig '_' hmem) (by decide)
    have hsplit : splitSep '_' (tag ++ '_' :: ds) = [tag, ds] := by
      rw [splitSep_append _ _ _ htag, splitSep_not_mem _ _ hnods]
    have hparse : pyIntParse ds = some ((digitsVal ds : Nat) : Int) :=
      pyIntParse_digits _ hne2 hdig
    refine ⟨tag, ds, hsplit, htag2, hparse, ?_, ?_⟩
    · rcases htag2 with rfl | rfl
      · unfold parseDecision
        rw [hsplit]
        simp [hparse]
      · unfold parseDecision
        rw [hsplit]
        simp [hparse]
    · intro st
      unfold handle_approval
      rw [hsplit]
  unfold matchesDecision at h
  rcases (by simpa using h :
      matchTag ("approve".toList) data = true ∨ matchTag ("reject".toList) data = true)
    with h' | h'
  · exact main _ (by decide) h' (Or.inl rfl)
  · exact main _ (by decide) h' (Or.inr rfl)

/-- Witness for C10 at the concrete callback data `approve_12345`. -/
theorem C10_parse_total_witness :
    matchesDecision ("approve_12345".toList) = true ∧
    ∃ a ds, splitSep '_' ("approve_12345".toList) = [a, ds] ∧
      (a = ("approve".toList) ∨ a = ("reject".toList)) ∧
      pyIntParse ds = some ((digitsVal ds : Nat) : Int) ∧
      (parseDecision ("approve_12345".toList)).isSome = true ∧
      (∀ st : BotState, handle_approval ("approve_12345".toList) st = decideAction a ds st) :=
  ⟨by decide, C10_parse_total ("approve_12345".toList) (by decide)⟩

/-- Claim C6 counterexample: main.py with the token set and `ADMIN_ID`
missing does not terminate; it loads successfully with the
administrator identity silently defaulted to 0, contradicting the claim
that a missing administrator identity terminates the process with a
non-zero status in both entry points. -/
theorem C6_counterexample :
    mainConfig (some ("bot-token")) none = .ok (some ("bot-token"), 0) := rfl

/-- Claim C6 as amended: bot.py terminates (exit status 1, before any
polling) exactly when the token is missing or empty, or the
administrator identity is missing, empty, or non-numeric; main.py
terminates at import exactly when the administrator identity is set but
non-numeric, while a missing administrator identity silently defaults
to 0 (and the token is never checked by main.py itself). -/
theorem C6_config (token adminId : Option String) :
    (isErr (botConfig token adminId) = true ↔
      token = none ∨ token = some ("") ∨ adminId = none ∨
        (∃ a, adminId = some a ∧ pyIntParse a.toList = none)) ∧
    (isErr (mainConfig token adminId) = true ↔
      ∃ a, adminId = some a ∧ pyIntParse a.toList = none) ∧
    mainConfig token none = .ok (token, 0) := by
  have botCase : ∀ t a : String, ¬ t = "" → ¬ a = "" →
      botConfig (some t) (some a) =
        (match pyIntParse a.toList with
         | none => .error 1
         | some n => .ok n) := by
    intro t a ht ha
    simp [botConfig, ht, ha]
  refine ⟨?_, ?_, rfl⟩
  · constructor
    · intro h
      cases token with
      | none => exact Or.inl rfl
      | some t =>
        by_cases ht : t = ""
        · exact Or.inr (Or.inl (by rw [ht]))
        · cases adminId with
          | none => exact Or.inr (Or.inr (Or.inl rfl))
          | some a =>
            by_cases ha : a = ""
            · subst ha
              exact Or.inr (Or.inr (Or.inr ⟨"", rfl, rfl⟩))
            · cases hp : pyIntParse a.toList with
              | none => exact Or.inr (Or.inr (Or.inr ⟨a, rfl, hp⟩))
              | some n =>
                rw [botCase t a ht ha, hp] at h
                simp [isErr] at h
    · intro h
      rcases h with rfl | rfl | rfl | ⟨a, rfl, hp⟩
      · rfl
      · rfl
      · cases token with
        | none => rfl
        | some t =>
          by_cases ht : t = "" <;> simp [botConfig, ht, isErr]
      · cases token with
        | none => rfl
        | some t =>
          by_cases ht : t = ""
          · simp [botConfig, ht, isErr]
          · by_cases ha : a = ""
            · simp [botConfig, ht, ha, isErr]
            · rw [botCase t a ht ha, hp]
              rfl
  · have mainCase : ∀ a : String, mainConfig token (some a) =
        (match pyIntParse a.toList with
         | none => .error ()
         | some n => .ok (token, n)) := by
      intro a
      simp [mainConfig]
    constructor
    · intro h
      cases adminId with
      | none => exact absurd h (by simp [mainConfig, isErr])
      | some a =>
        cases hp : pyIntParse a.toList with
        | none => exact ⟨a, rfl, hp⟩
        | some n =>
          rw [mainCase a, hp] at h
          simp [isErr] at h
    · intro h
      obtain ⟨a, rfl, hp⟩ := h
      rw [mainCase a, hp]
      rfl

/-- Witness for C6 at concrete configurations: a missing token makes
bot.py exit, and a non-numeric administrator identity makes main.py
terminate at import. -/
theorem C6_config_witness :
    isErr (botConfig none (some ("5"))) = true ∧
    isErr (mainConfig (some ("tok")) (some ("abc"))) = true := by
  constructor
  · exact (C6_config none (some ("5"))).1.mpr (Or.inl rfl)
  · exact (C6_config (some ("tok")) (some ("abc"))).2.1.mpr ⟨"abc", rfl, by decide⟩

/-- Claim C4 (confirmed): the decision handler removes the target's
pending request unconditionally (approve and reject alike), so a
subsequent decision finds no pending request; an absent pending request
is tolerated and yields the empty profile snapshot in the notification;
approve adds the target to the approved set and reject leaves the
approved set exactly as it was.  The well-formedness hypothesis says the
pending map is a dict (distinct keys), which every Python dict
satisfies. -/
theorem C4_decision (st : BotState) (uid : Nat) (d : Bool)
    (hkeys : (st.pending.map Prod.fst).Nodup) :
    (decideApproval d uid st).1.pending = assocPop uid st.pending ∧
    assocGet uid (decideApproval d uid st).1.pending = none ∧
    uid ∈ (decideApproval true uid st).1.approved ∧
    (decideApproval false uid st).1.approved = st.approved ∧
    (decideApproval d uid st).2 =
      (if d then
        [Effect.edit (.approvedNotice uid ((assocGet uid st.pending).getD emptyProfile)),
         Effect.send uid .approvedUserMsg]
       else
        [Effect.edit (.rejectedNotice uid ((assocGet uid st.pending).getD emptyProfile)),
         Effect.send uid .rejectedUserMsg]) ∧
    (assocGet uid st.pending = none →
      (decideApproval d uid st).2 =
        (if d then
          [Effect.edit (.approvedNotice uid emptyProfile), Effect.send uid .approvedUserMsg]
         else
          [Effect.edit (.rejectedNotice uid emptyProfile), Effect.send uid .rejectedUserMsg])) := by
  refine ⟨?_, ?_, ?_, ?_, ?_, ?_⟩
  · cases d <;> simp [decideApproval]
  · cases d <;> simp [decideApproval, assocGet_assocPop_self uid st.pending hkeys]
  · simp [decideApproval, mem_setInsert_self]
  · simp [decideApproval]
  · cases d <;> simp [decideApproval]
  · intro h
    cases d <;> simp [decideApproval, h]

/-- Witness for C4 at a concrete store with no pending request for the
target: the request map stays empty, the target is approved, and the
notification uses the empty snapshot. -/
theorem C4_decision_witness :
    7 ∈ (decideApproval true 7 ⟨[], [], []⟩).1.approved ∧
    (decideApproval true 7 ⟨[], [], []⟩).1.pending = [] ∧
    (decideApproval true 7 ⟨[], [], []⟩).2 =
      [Effect.edit (.approvedNotice 7 emptyProfile), Effect.send 7 .approvedUserMsg] := by
  have h := C4_decision ⟨[], [], []⟩ 7 true (by decide)
  exact ⟨h.2.2.1, h.1, h.2.2.2.2.2 rfl⟩

/-- Claim C3 counterexample: in main.py's entry point the administrator
is not excluded from the approval workflow.  From the initial state, a
`/start` by the administrator identity itself creates a pending request
for the administrator and sends the administrator an approval request
about itself (main.py's `start` has no administrator branch and main.py
has no administrator menu), contradicting the claim for that entry
point. -/
theorem C3_counterexample :
    (start_main 777 777 ⟨none, "Ad", ""⟩ ⟨[], [], []⟩).1.pending =
      [(777, ⟨none, "Ad", ""⟩)] ∧
    Effect.send 777 (.approvalRequest 777 ⟨none, "Ad", ""⟩) ∈
      (start_main 777 777 ⟨none, "Ad", ""⟩ ⟨[], [], []⟩).2 ∧
    Effect.reply .adminMenu ∉ (start_main 777 777 ⟨none, "Ad", ""⟩ ⟨[], [], []⟩).2 := by
  decide

/-- Claim C3 as amended: in bot.py's entry point the administrator is
excluded from the approval workflow entirely (the admin menu is
presented, the state is untouched, and no approval request is sent),
while in main.py's entry point the administrator is not special-cased:
unless already approved, a `/start` from the administrator records a
pending request for the administrator and sends the approval request to
the administrator about itself. -/
theorem C3_admin_start (adm : Nat) (p : Profile) (st stM : BotState)
    (h : adm ∉ stM.approved) :
    start_bot adm adm p st = (st, [Effect.reply .adminMenu]) ∧
    (start_main adm adm p stM).1.pending = assocSet adm p stM.pending ∧
    (start_main adm adm p stM).2 =
      [Effect.send adm (.approvalRequest adm p), Effect.reply .requestAck] := by
  refine ⟨by simp [start_bot], ?_, ?_⟩ <;> simp [start_main, h]

/-- Witness for C3 at a concrete administrator identity and states. -/
theorem C3_admin_start_witness :
    start_bot 42 42 ⟨none, "A", ""⟩ ⟨[], [], []⟩ =
      (⟨[], [], []⟩, [Effect.reply .adminMenu]) ∧
    (start_main 42 42 ⟨none, "A", ""⟩ ⟨[], [], []⟩).1.pending =
      assocSet 42 ⟨none, "A", ""⟩ [] := by
  have h := C3_admin_start 42 ⟨none, "A", ""⟩ ⟨[], [], []⟩ ⟨[], [], []⟩ (by decide)
  exact ⟨h.1, h.2.1⟩

/-- Claim C7 counterexample: the payment-format-prompt half of the claim
fails for the administrator identity in bot.py.  In a state where the
administrator identity is in the approved set (reachable by one approve
decision naming the administrator), its `/start` is answered with the
admin menu and not with the payment-format prompt; the pending map is
nevertheless unchanged. -/
theorem C7_counterexample :
    555 ∈ (decideApproval true 555 ⟨[], [], []⟩).1.approved ∧
    (start_bot 555 555 ⟨none, "A", ""⟩ (decideApproval true 555 ⟨[], [], []⟩).1).2 =
      [Effect.reply .adminMenu] ∧
    Effect.reply .paymentPrompt ∉
      (start_bot 555 555 ⟨none, "A", ""⟩ (decideApproval true 555 ⟨[], [], []⟩).1).2 := by
  decide

/-- Claim C7 as amended: a `/start` from any identity in the approved
set leaves the whole state — the pending-request map in particular —
unchanged, in both entry points and with no exception for the
administrator; in main.py every approved identity, the administrator
included, receives the payment-format prompt; in bot.py a
non-administrator approved identity receives the payment-format prompt
while the administrator identity receives the admin menu instead. -/
theorem C7_approved_start (adm uid : Nat) (p : Profile) (st stM : BotState)
    (hb : uid ∈ st.approved) (hm : uid ∈ stM.approved) :
    (start_bot adm uid p st).1 = st ∧
    start_main adm uid p stM = (stM, [Effect.reply .paymentPrompt]) ∧
    (uid ≠ adm → start_bot adm uid p st = (st, [Effect.reply .paymentPrompt])) ∧
    (uid = adm → start_bot adm uid p st = (st, [Effect.reply .adminMenu])) := by
  refine ⟨?_, ?_, ?_, ?_⟩
  · by_cases h1 : uid = adm
    · simp [start_bot, h1]
    · simp [start_bot, h1, hb]
  · simp [start_main, hm]
  · intro hne
    simp [start_bot, hne, hb]
  · intro he
    simp [start_bot, he]

/-- Witness for C7 at concrete approved identities: main.py's approved
administrator gets the payment-format prompt with the state unchanged,
bot.py's approved non-administrator likewise, and bot.py's approved
administrator keeps the state unchanged while getting the admin menu. -/
theorem C7_approved_start_witness :
    start_main 42 42 ⟨none, "A", ""⟩ ⟨[], [42], []⟩ =
      (⟨[], [42], []⟩, [Effect.reply .paymentPrompt]) ∧
    start_bot 1 99 ⟨none, "U", ""⟩ ⟨[], [99], []⟩ =
      (⟨[], [99], []⟩, [Effect.reply .paymentPrompt]) ∧
    (start_bot 42 42 ⟨none, "A", ""⟩ ⟨[], [42], []⟩).1 = ⟨[], [42], []⟩ ∧
    start_bot 42 42 ⟨none, "A", ""⟩ ⟨[], [42], []⟩ =
      (⟨[], [42], []⟩, [Effect.reply .adminMenu]) := by
  have h1 := C7_approved_start 42 42 ⟨none, "A", ""⟩ ⟨[], [42], []⟩ ⟨[], [42], []⟩
    (by decide) (by decide)
  have h2 := C7_approved_start 1 99 ⟨none, "U", ""⟩ ⟨[], [99], []⟩ ⟨[], [99], []⟩
    (by decide) (by decide)
  exact ⟨h1.2.1, h2.2.2.1 (by decide), h1.1, h1.2.2.2 rfl⟩

/-- Claim C8 counterexample: the handler strips the text before
validating, so the received text `" 12345"` — which is not
all-decimal-digits — is nevertheless accepted: the conversation ends
(returns to idle) and the deep-link action for 12345 is produced,
contradicting the claimed if-and-only-if on the received text. -/
theorem C8_counterexample :
    pyIsdigit (' ' :: ("12345".toList)) = false ∧
    (get_user_id_for_message (' ' :: ("12345".toList)) []).2.2 = ConvState.idle ∧
    Effect.reply (.deepLink 12345) ∈
      (get_user_id_for_message (' ' :: ("12345".toList)) []).2.1 := by
  decide

/-- Claim C8 as amended: while awaiting the target identity, a received
text is accepted if and only if its whitespace-stripped form is a
nonempty all-decimal-digit string of length at least 5; on acceptance
the handler produces the deep-link action for the stripped digits'
value, re-presents the admin menu and returns to idle; otherwise it
re-prompts and remains in the awaiting-target state, never touching the
working data. -/
theorem C8_target_id (text : List Char) (ud : List (List Char)) :
    ((get_user_id_for_message text ud).2.2 = ConvState.idle ↔
      (pyIsdigit (pyStrip text) = true ∧ 5 ≤ (pyStrip text).length)) ∧
    (get_user_id_for_message text ud).1 = ud ∧
    (get_user_id_for_message text ud).2 =
      (if pyIsdigit (pyStrip text) = true ∧ 5 ≤ (pyStrip text).length then
        ([Effect.reply (.deepLink (digitsVal (pyStrip text))), Effect.reply .adminMenu],
         ConvState.idle)
       else
        ([Effect.reply .invalidTargetId], ConvState.waitingForUserId)) := by
  by_cases hc : pyIsdigit (pyStrip text) = true ∧ 5 ≤ (pyStrip text).length
  · have h2 : ¬ ((pyStrip text).length < 5) := by
      have := hc.2
      omega
    simp [get_user_id_for_message, hc.1, h2, hc]
  · have hcond : pyIsdigit (pyStrip text) = false ∨ (pyStrip text).length < 5 := by
      rcases Decidable.not_and_iff_or_not.mp hc with h | h
      · exact Or.inl (Bool.not_eq_true _ ▸ Bool.eq_false_iff.mpr h)
      · exact Or.inr (by omega)
    simp [get_user_id_for_message, hcond, hc]

/-- Witness for C8 at accepted and rejected concrete inputs. -/
theorem C8_target_id_witness :
    ((get_user_id_for_message ("12345".toList) []).2.2 = ConvState.idle ↔
      (pyIsdigit (pyStrip ("12345".toList)) = true ∧
        5 ≤ (pyStrip ("12345".toList)).length)) ∧
    (get_user_id_for_message ("123".toList) []).2.2 = ConvState.waitingForUserId := by
  constructor
  · exact (C8_target_id ("12345".toList) []).1
  · have h := (C8_target_id ("123".toList) []).2.2
    rw [if_neg (by decide)] at h
    rw [h]

/-- Claim C9 (confirmed): the extraction step is deterministic and
idempotent with no hidden state.  The reply and resulting conversation
stage of `process_user_ids` depend only on the message text, not on any
previously stored working data, and a second run on the same text — in
the state the first run produced — yields exactly the same reply and
transition (hence the same deduplicated identifier sequence in
first-occurrence order). -/
theorem C9_extraction (text : List Char) (ud1 ud2 : List (List Char)) :
    (process_user_ids text ud1).2 = (process_user_ids text ud2).2 ∧
    (process_user_ids text (process_user_ids text ud1).1).2 =
      (process_user_ids text ud1).2 := by
  cases h : (extractIds text).isEmpty <;> simp [process_user_ids, h]

/-- Witness for C9 at a concrete text and two distinct stored states. -/
theorem C9_extraction_witness :
    (process_user_ids ("12345".toList) []).2 =
      (process_user_ids ("12345".toList) [("99999".toList)]).2 :=
  (C9_extraction ("12345".toList) [] [("99999".toList)]).1

lemma approved_applySession (st : BotState) (uid : Nat)
    (r : List (List Char) × List Effect × ConvState) :
    (applySession st uid r).1.approved = st.approved := rfl

lemma approved_decideAction (a d : List Char) (st : BotState) :
    (decideAction a d st).1.approved = st.approved ∨
      ∃ n : Int, pyIntParse d = some n ∧ a = ("approve".toList) ∧
        (decideAction a d st).1.approved = setInsert n.toNat st.approved := by
  unfold decideAction
  cases hp : pyIntParse d with
  | none => left; rfl
  | some n =>
    by_cases ha : a = ("approve".toList)
    · right
      refine ⟨n, rfl, ha, ?_⟩
      simp [ha, decideApproval]
    · by_cases hr : a = ("reject".toList)
      · left
        simp [ha, hr, decideApproval]
      · left
        have ha' : ¬ a = ['a', 'p', 'p', 'r', 'o', 'v', 'e'] := by simpa using ha
        have hr' : ¬ a = ['r', 'e', 'j', 'e', 'c', 't'] := by simpa using hr
        simp [ha', hr']

lemma approved_handle_approval (data : List Char) (st : BotState) :
    (handle_approval data st).1.approved = st.approved ∨
      ∃ target, parseDecision data = some (true, target) ∧
        (handle_approval data st).1.approved = setInsert target st.approved := by
  unfold handle_approval
  cases hs : splitSep '_' data with
  | nil => left; rfl
  | cons a rest =>
    cases rest with
    | nil => left; rfl
    | cons dd rest2 =>
      cases rest2 with
      | cons x xs => left; rfl
      | nil =>
        rcases approved_decideAction a dd st with h | ⟨n, hp, ha, h⟩
        · left
          exact h
        · right
          refine ⟨n.toNat, ?_, h⟩
          simp [parseDecision, hs, hp, ha]

lemma approved_botStep (adm : Nat) (e : Event) (st : BotState) :
    (botStep adm e st).1.approved = st.approved ∨
      ∃ cuid data target, e = Event.callback cuid data ∧
        parseDecision data = some (true, target) ∧
        (botStep adm e st).1.approved = setInsert target st.approved := by
  cases e with
  | startCmd uid p =>
    left
    simp only [botStep, start_bot]
    split_ifs <;> rfl
  | helpCmd uid => left; rfl
  | cancelCmd uid => left; rfl
  | callback uid data =>
    by_cases hm : matchesDecision data = true
    · rcases approved_handle_approval data st with h | ⟨t, hp, h⟩
      · left
        simpa [botStep, hm] using h
      · right
        exact ⟨uid, data, t, rfl, hp, by simpa [botStep, hm] using h⟩
    · left
      simp only [botStep]
      rw [if_neg hm]
      split_ifs <;> rfl
  | text uid body =>
    left
    cases hc : (getSession st uid).1 <;>
      simp [botStep, hc, applySession, setSession]

lemma approved_mainStep (adm : Nat) (e : Event) (st : BotState) :
    (mainStep adm e st).1.approved = st.approved ∨
      ∃ cuid data target, e = Event.callback cuid data ∧
        parseDecision data = some (true, target) ∧
        (mainStep adm e st).1.approved = setInsert target st.approved := by
  cases e with
  | startCmd uid p =>
    left
    simp only [mainStep, start_main]
    split_ifs <;> rfl
  | helpCmd uid => left; rfl
  | cancelCmd uid => left; rfl
  | callback uid data =>
    by_cases hm : matchesDecision data = true
    · rcases approved_handle_approval data st with h | ⟨t, hp, h⟩
      · left
        simpa [mainStep, hm] using h
      · right
        exact ⟨uid, data, t, rfl, hp, by simpa [mainStep, hm] using h⟩
    · left
      simp only [mainStep]
      rw [if_neg hm]
      split_ifs <;> rfl
  | text uid body =>
    left
    cases hc : (getSession st uid).1 <;>
      simp [mainStep, hc, applySession, setSession]

/-- Claim C5 (confirmed): across every operation of either entry point,
the approved set only grows — no event ever removes an identity — and
the only event that can change it is a decision callback whose parsed
action is approve, which inserts exactly the parsed target identity. -/
theorem C5_approved_monotone (adm : Nat) (e : Event) (st : BotState) :
    (∀ u ∈ st.approved, u ∈ (botStep adm e st).1.approved) ∧
    (∀ u ∈ st.approved, u ∈ (mainStep adm e st).1.approved) ∧
    ((botStep adm e st).1.approved = st.approved ∨
      ∃ cuid data target, e = Event.callback cuid data ∧
        parseDecision data = some (true, target) ∧
        (botStep adm e st).1.approved = setInsert target st.approved) ∧
    ((mainStep adm e st).1.approved = st.approved ∨
      ∃ cuid data target, e = Event.callback cuid data ∧
        parseDecision data = some (true, target) ∧
        (mainStep adm e st).1.approved = setInsert target st.approved) := by
  have hb := approved_botStep adm e st
  have hm := approved_mainStep adm e st
  refine ⟨?_, ?_, hb, hm⟩
  · intro u hu
    rcases hb with h | ⟨_, _, t, _, _, h⟩
    · rw [h]; exact hu
    · rw [h]; exact mem_setInsert_of_mem _ _ _ hu
  · intro u hu
    rcases hm with h | ⟨_, _, t, _, _, h⟩
    · rw [h]; exact hu
    · rw [h]; exact mem_setInsert_of_mem _ _ _ hu

/-- Witness for C5: a previously approved identity survives an approve
decision for another identity in bot.py and a help command in main.py. -/
theorem C5_approved_monotone_witness :
    3 ∈ (botStep 1 (Event.callback 2 ("approve_44444".toList)) ⟨[], [3], []⟩).1.approved ∧
    3 ∈ (mainStep 1 (Event.helpCmd 2) ⟨[], [3], []⟩).1.approved := by
  have h1 := C5_approved_monotone 1 (Event.callback 2 ("approve_44444".toList)) ⟨[], [3], []⟩
  have h2 := C5_approved_monotone 1 (Event.helpCmd 2) ⟨[], [3], []⟩
  exact ⟨h1.1 3 (by decide), h2.2.1 3 (by decide)⟩

/-!
Characterisation of the extractor: the scanner emits exactly the
whole-token digit runs (word-bounded, length at least 5), and the
duplicate-removal loop equals the canonical keep-first deduplication.
-/

lemma word_of_digit {c : Char} (h : isDigitC c = true) : isWordC c = true := by
  have h' : c.isDigit = true := h
  simp [isWordC, Char.isAlphanum, h']

lemma headNotWord_nil : headNotWord [] := by
  intro c hc
  simp at hc

lemma headNotWord_cons {c : Char} {l : List Char} :
    headNotWord (c :: l) ↔ isWordC c = false := by
  constructor
  · intro h
    exact h c rfl
  · intro h d hd
    simp only [List.head?_cons, Option.some.injEq] at hd
    subst hd
    exact h

lemma headRun_nil (prevOK : Bool) (acc r : List Char) :
    headRun prevOK acc [] r ↔ (r = acc ∧ 5 ≤ acc.length ∧ prevOK = true) := by
  constructor
  · rintro ⟨ds, post, heq, hds, hr, h5, hp, hh⟩
    obtain ⟨rfl, rfl⟩ := List.append_eq_nil.mp heq.symm
    rw [List.append_nil] at hr
    subst hr
    exact ⟨rfl, h5, hp⟩
  · rintro ⟨rfl, h5, hp⟩
    exact ⟨[], [], rfl, by simp, by simp, by simpa using h5, hp, headNotWord_nil⟩

lemma tailRun_nil (r : List Char) : ¬ tailRun [] r := by
  rintro ⟨h5, hdig, pre, post, heq, hne, hlast, hh⟩
  obtain ⟨h1, -⟩ := List.append_eq_nil.mp heq.symm
  obtain ⟨rfl, -⟩ := List.append_eq_nil.mp h1
  exact hne rfl

lemma headRun_cons_digit {c : Char} (hd : isDigitC c = true)
    (prevOK : Bool) (acc cs r : List Char) :
    headRun prevOK acc (c :: cs) r ↔ headRun prevOK (acc ++ [c]) cs r := by
  constructor
  · rintro ⟨ds, post, heq, hds, hr, h5, hp, hh⟩
    cases ds with
    | nil =>
      simp only [List.nil_append] at heq
      subst heq
      have h1 := headNotWord_cons.mp hh
      rw [word_of_digit hd] at h1
      exact absurd h1 (by decide)
    | cons d ds' =>
      rw [List.cons_append] at heq
      injection heq with h1 h2
      subst h1
      refine ⟨ds', post, h2, ?_, ?_, h5, hp, hh⟩
      · intro x hx
        exact hds x (List.mem_cons_of_mem _ hx)
      · rw [hr]
        simp
  · rintro ⟨ds, post, heq, hds, hr, h5, hp, hh⟩
    refine ⟨c :: ds, post, ?_, ?_, ?_, h5, hp, hh⟩
    · rw [List.cons_append, heq]
    · intro x hx
      rcases List.mem_cons.mp hx with rfl | hx
      · exact hd
      · exact hds x hx
    · rw [hr]
      simp

lemma headRun_cons_nondigit {c : Char} (hd : isDigitC c = false)
    (prevOK : Bool) (acc cs r : List Char) :
    headRun prevOK acc (c :: cs) r ↔
      (r = acc ∧ 5 ≤ acc.length ∧ prevOK = true ∧ isWordC c = false) := by
  constructor
  · rintro ⟨ds, post, heq, hds, hr, h5, hp, hh⟩
    cases ds with
    | cons d ds' =>
      rw [List.cons_append] at heq
      injection heq with h1 h2
      subst h1
      have := hds c (List.mem_cons_self _ _)
      rw [hd] at this
      exact absurd this (by decide)
    | nil =>
      simp only [List.nil_append] at heq
      subst heq
      rw [List.append_nil] at hr
      subst hr
      exact ⟨rfl, h5, hp, headNotWord_cons.mp hh⟩
  · rintro ⟨rfl, h5, hp, hw⟩
    exact ⟨[], c :: cs, rfl, by simp, by simp, by simpa using h5, hp,
      headNotWord_cons.mpr hw⟩

lemma tailRun_cons_digit {c : Char} (hd : isDigitC c = true) (cs r : List Char) :
    tailRun (c :: cs) r ↔ tailRun cs r := by
  constructor
  · rintro ⟨h5, hdig, pre, post, heq, hne, hlast, hh⟩
    cases pre with
    | nil => exact absurd rfl hne
    | cons p pre' =>
      rw [List.cons_append] at heq
      injection heq with h1 h2
      subst h1
      cases pre' with
      | nil =>
        have h1 := hlast c (by simp)
        rw [word_of_digit hd] at h1
        exact absurd h1 (by decide)
      | cons q pre'' =>
        refine ⟨h5, hdig, q :: pre'', post, h2, by simp, ?_, hh⟩
        intro x hx
        exact hlast x (by rw [List.getLast?_cons_cons]; exact hx)
  · rintro ⟨h5, hdig, pre, post, heq, hne, hlast, hh⟩
    refine ⟨h5, hdig, c :: pre, post, by simp [heq], by simp, ?_, hh⟩
    intro x hx
    apply hlast
    cases pre with
    | nil => exact absurd rfl hne
    | cons a pre' => rwa [List.getLast?_cons_cons] at hx

lemma tailRun_cons_nondigit {c : Char} (_hd : isDigitC c = false) (cs r : List Char) :
    tailRun (c :: cs) r ↔ (headRun (!isWordC c) [] cs r ∨ tailRun cs r) := by
  constructor
  · rintro ⟨h5, hdig, pre, post, heq, hne, hlast, hh⟩
    cases pre with
    | nil => exact absurd rfl hne
    | cons p pre' =>
      rw [List.cons_append] at heq
      injection heq with h1 h2
      subst h1
      cases pre' with
      | nil =>
        left
        have hw := hlast c (by simp)
        simp only [List.nil_append] at h2
        exact ⟨r, post, h2, hdig, by simp, h5, by simp [hw], hh⟩
      | cons q pre'' =>
        right
        refine ⟨h5, hdig, q :: pre'', post, h2, by simp, ?_, hh⟩
        intro x hx
        exact hlast x (by rw [List.getLast?_cons_cons]; exact hx)
  · rintro (⟨ds, post, heq, hds, hr, h5, hp, hh⟩ | ⟨h5, hdig, pre, post, heq, hne, hlast, hh⟩)
    · simp only [List.nil_append] at hr
      subst hr
      refine ⟨h5, hds, [c], post, by simp [heq], by simp, ?_, hh⟩
      intro x hx
      simp only [List.getLast?_singleton, Option.some.injEq] at hx
      subst hx
      simpa using hp
    · refine ⟨h5, hdig, c :: pre, post, by simp [heq], by simp, ?_, hh⟩
      intro x hx
      apply hlast
      cases pre with
      | nil => exact absurd rfl hne
      | cons a pre' => rwa [List.getLast?_cons_cons] at hx

lemma mem_scanRuns (r text : List Char) :
    ∀ (prevOK : Bool) (acc : List Char),
      r ∈ scanRuns prevOK acc text ↔ headRun prevOK acc text r ∨ tailRun text r := by
  induction text with
  | nil =>
    intro prevOK acc
    rw [headRun_nil]
    constructor
    · intro h
      simp only [scanRuns] at h
      split at h
      · rename_i hcond
        left
        rw [List.mem_singleton] at h
        exact ⟨h, hcond.1, hcond.2⟩
      · exact absurd h (List.not_mem_nil r)
    · rintro (⟨rfl, h5, hp⟩ | h)
      · simp only [scanRuns]
        rw [if_pos ⟨h5, hp⟩]
        exact List.mem_singleton.mpr rfl
      · exact absurd h (tailRun_nil r)
  | cons c cs ih =>
    intro prevOK acc
    by_cases hd : isDigitC c = true
    · have hstep : scanRuns prevOK acc (c :: cs) = scanRuns prevOK (acc ++ [c]) cs := by
        simp [scanRuns, hd]
      rw [hstep, ih prevOK (acc ++ [c]), headRun_cons_digit hd, tailRun_cons_digit hd]
    · have hd' : isDigitC c = false := Bool.eq_false_iff.mpr hd
      have hstep : scanRuns prevOK acc (c :: cs) =
          (if 5 ≤ acc.length ∧ prevOK = true ∧ isWordC c = false then [acc] else []) ++
            scanRuns (!isWordC c) [] cs := by
        simp [scanRuns, hd']
      have hflush : r ∈ (if 5 ≤ acc.length ∧ prevOK = true ∧ isWordC c = false
          then [acc] else []) ↔
          (r = acc ∧ 5 ≤ acc.length ∧ prevOK = true ∧ isWordC c = false) := by
        split_ifs with hP
        · simp only [List.mem_singleton]
          constructor
          · intro h
            exact ⟨h, hP.1, hP.2.1, hP.2.2⟩
          · intro h
            exact h.1
        · simp only [List.not_mem_nil, false_iff]
          rintro ⟨h1, h2, h3, h4⟩
          exact hP ⟨h2, h3, h4⟩
      rw [hstep, List.mem_append, hflush, ih (!isWordC c) [],
        headRun_cons_nondigit hd', tailRun_cons_nondigit hd']

lemma mem_tokenRuns (text r : List Char) :
    r ∈ tokenRuns text ↔ isWholeTokenRun text r := by
  rw [tokenRuns, mem_scanRuns r text true []]
  constructor
  · rintro (⟨ds, post, heq, hds, hr, h5, hp, hh⟩ | ⟨h5, hdig, pre, post, heq, hne, hlast, hh⟩)
    · simp only [List.nil_append] at hr
      subst hr
      refine ⟨h5, hds, [], post, heq, ?_, hh⟩
      intro x hx
      simp at hx
    · exact ⟨h5, hdig, pre, post, heq, hlast, hh⟩
  · rintro ⟨h5, hdig, pre, post, heq, hlast, hh⟩
    cases pre with
    | nil =>
      left
      exact ⟨r, post, heq, hdig, by simp, h5, rfl, hh⟩
    | cons p pre' =>
      right
      exact ⟨h5, hdig, p :: pre', post, heq, by simp, hlast, hh⟩

lemma mem_dedupSeen (seen l : List (List Char)) (r : List Char) :
    r ∈ dedupSeen seen l ↔ r ∈ l ∧ r ∉ seen := by
  induction l generalizing seen with
  | nil => simp [dedupSeen]
  | cons x xs ih =>
    by_cases hx : x ∈ seen
    · rw [show dedupSeen seen (x :: xs) = dedupSeen seen xs from by simp [dedupSeen, hx],
        ih seen]
      constructor
      · rintro ⟨h1, h2⟩
        exact ⟨List.mem_cons_of_mem _ h1, h2⟩
      · rintro ⟨h1, h2⟩
        rcases List.mem_cons.mp h1 with rfl | h1
        · exact absurd hx h2
        · exact ⟨h1, h2⟩
    · rw [show dedupSeen seen (x :: xs) = x :: dedupSeen (x :: seen) xs from by
        simp [dedupSeen, hx]]
      constructor
      · intro h
        rcases List.mem_cons.mp h with rfl | h
        · exact ⟨List.mem_cons_self _ _, hx⟩
        · obtain ⟨h1, h2⟩ := (ih (x :: seen)).mp h
          exact ⟨List.mem_cons_of_mem _ h1, fun hm => h2 (List.mem_cons_of_mem _ hm)⟩
      · rintro ⟨h1, h2⟩
        by_cases hrx : r = x
        · subst hrx
          exact List.mem_cons_self _ _
        · have h1' : r ∈ xs := by
            rcases List.mem_cons.mp h1 with h | h
            · exact absurd h hrx
            · exact h
          refine List.mem_cons_of_mem _ ((ih (x :: seen)).mpr ⟨h1', ?_⟩)
          intro hm
          rcases List.mem_cons.mp hm with h | h
          · exact hrx h
          · exact h2 h

lemma nodup_dedupSeen (seen l : List (List Char)) : (dedupSeen seen l).Nodup := by
  induction l generalizing seen with
  | nil => simp [dedupSeen]
  | cons x xs ih =>
    by_cases hx : x ∈ seen
    · rw [show dedupSeen seen (x :: xs) = dedupSeen seen xs from by simp [dedupSeen, hx]]
      exact ih seen
    · rw [show dedupSeen seen (x :: xs) = x :: dedupSeen (x :: seen) xs from by
        simp [dedupSeen, hx]]
      refine List.nodup_cons.mpr ⟨?_, ih (x :: seen)⟩
      intro hm
      exact ((mem_dedupSeen _ _ _).mp hm).2 (List.mem_cons_self _ _)

lemma dedupSeen_eq_dedupFirst (seen l : List (List Char)) :
    dedupSeen seen l = dedupFirst (l.filter (fun y => decide (y ∉ seen))) := by
  induction l generalizing seen with
  | nil => simp [dedupSeen, dedupFirst]
  | cons x xs ih =>
    by_cases hx : x ∈ seen
    · rw [show dedupSeen seen (x :: xs) = dedupSeen seen xs from by simp [dedupSeen, hx],
        List.filter_cons]
      have hdx : decide (x ∉ seen) = false := by simp [hx]
      rw [hdx]
      simp only [Bool.false_eq_true, if_false]
      exact ih seen
    · rw [show dedupSeen seen (x :: xs) = x :: dedupSeen (x :: seen) xs from by
        simp [dedupSeen, hx], List.filter_cons]
      have hdx : decide (x ∉ seen) = true := by simp [hx]
      rw [hdx]
      simp only [if_true]
      rw [show dedupFirst (x :: xs.filter (fun y => decide (y ∉ seen))) =
          x :: dedupFirst ((xs.filter (fun y => decide (y ∉ seen))).filter
            (fun y => decide (y ≠ x))) from by rw [dedupFirst]]
      congr 1
      rw [ih (x :: seen)]
      congr 1
      rw [List.filter_filter]
      apply List.filter_congr
      intro a _
      by_cases h1 : a = x <;> by_cases h2 : a ∈ seen <;> simp [h1, h2]

/-- Claim C1 counterexample: the claim's own boundary notion (non-digit
characters or string edges, no embedding in a longer alphanumeric run)
accepts the run `12345` of the text `_12345`, because the underscore is
neither a digit nor alphanumeric; yet the extraction step returns
nothing on that text, since the regex word boundary `\b` treats the
underscore as a word character and so `\b\d{5,}\b` has no match. -/
theorem C1_counterexample :
    claimTokenRun ("_12345".toList) ("12345".toList) ∧
    ("12345".toList) ∉ extractIds ("_12345".toList) := by
  constructor
  · refine ⟨by decide, by decide, ['_'], [], by decide, ?_, ?_⟩
    · intro c hc
      simp only [List.getLast?_singleton, Option.some.injEq] at hc
      subst hc
      decide
    · intro c hc
      simp at hc
  · decide

/-- Claim C1 as amended: the extraction step returns exactly the maximal
runs of decimal digits of length at least 5 that occur in the text with
a non-word character (neither alphanumeric nor underscore) or a string
edge on both sides, deduplicated keeping the first occurrence of each
distinct run, in order; in particular
`extract("abc123 12345") = ["12345"]`. -/
theorem C1_extractor (text : List Char) :
    extractIds text = dedupFirst (tokenRuns text) ∧
    (∀ r, r ∈ extractIds text ↔ isWholeTokenRun text r) ∧
    (extractIds text).Nodup ∧
    extractIds ("abc123 12345".toList) = [("12345".toList)] := by
  refine ⟨?_, ?_, nodup_dedupSeen [] _, by decide⟩
  · rw [extractIds, dedupSeen_eq_dedupFirst]
    congr 1
    apply List.filter_eq_self.mpr
    intro a _
    simp
  · intro r
    rw [extractIds, mem_dedupSeen, mem_tokenRuns]
    simp

/-- Witness for C1 at the specification's concrete example. -/
theorem C1_extractor_witness :
    extractIds ("abc123 12345".toList) = [("12345".toList)] :=
  (C1_extractor ("abc123 12345".toList)).2.2.2

end Sanar
